import Mathlib

/-!
sumvec.cpp: build the vector 1..4, sum it, print the sum.

A shallow embedding of `src/slides/why-julia/sumvec.cpp`.

* `int` values are mathematical integers; every `int` addition of the program goes
  through an arithmetic mode `arith : Int → Int` applied to the exact result.
  The machine mode is `wrapInt` (two's complement, 32 bits), the exact mode is `id`.
* `std::vector<int>` is a `List Int`; `push_back` appends at the end.
* A `std::vector<int>::iterator` is its offset from `x.begin()`; `x.end()` is the
  length of the vector; dereferencing an offset outside the vector has no result.
* A `for` loop is run with fuel: one unit per evaluation of its condition.  The
  loop returns the list of the states in which the condition was evaluated, so the
  last element is the state at loop exit.
* A call of `main` takes the world it is called in (command line, environment,
  standard input, standard output) and returns the world it leaves, so that calls
  can follow one another.
-/

namespace SumVec

/-- Smallest value of a 32-bit signed `int`. -/
def INT_MIN : Int := -2147483648

/-- Largest value of a 32-bit signed `int`. -/
def INT_MAX : Int := 2147483647

/-- Membership in the range of a 32-bit signed `int`. -/
def inIntRange (v : Int) : Prop := INT_MIN ≤ v ∧ v ≤ INT_MAX

instance (v : Int) : Decidable (inIntRange v) := by
  unfold inIntRange; infer_instance

/-- Two's complement wrap of an exact result to 32 bits (arithmetic mod 2^32). -/
def wrapInt (v : Int) : Int := (v + 2147483648) % 4294967296 - 2147483648

/-- Generic `for (...; cond; ...) body` loop, the increment being part of `body`.
`none` when the fuel runs out or the body has no result. -/
def forLoop {σ : Type} (cond : σ → Bool) (body : σ → Option σ) : Nat → σ → Option (List σ)
  | 0, _ => none
  | fuel + 1, s =>
    if cond s then
      match body s with
      | some s' => (forLoop cond body fuel s').map (fun tr => s :: tr)
      | none => none
    else some [s]

/-- Number of times the body ran in a finished loop. -/
def iterations {σ : Type} (tr : List σ) : Nat := tr.length - 1

/-- Variables live in the construction loop (lines 7-10): the counter `i` and `x`. -/
structure FillState where
  i : Int
  x : List Int
  deriving DecidableEq

/-- Condition `i<n` of the construction loop (`n` is 5 in the source). -/
def fillCond (n : Int) (s : FillState) : Bool := decide (s.i < n)

/-- Body and increment of the construction loop: `x.push_back(i); i++`. -/
def fillBody (arith : Int → Int) (s : FillState) : Option FillState :=
  some { i := arith (s.i + 1), x := s.x ++ [s.i] }

/-- Lines 7-10 with bound `n`: `std::vector<int> x; for (int i=1;i<n;i++) x.push_back(i);` -/
def fillLoop (arith : Int → Int) (n : Int) (fuel : Nat) : Option (List FillState) :=
  forLoop (fillCond n) (fillBody arith) fuel { i := 1, x := [] }

/-- Variables live in the summation loop (lines 12-15): `x`, the iterator `i`
(as an offset from `x.begin()`) and `sum`. -/
structure SumState where
  x : List Int
  it : Nat
  sum : Int
  deriving DecidableEq

/-- Condition `i!=x.end()` of the summation loop. -/
def sumCond (s : SumState) : Bool := s.it != s.x.length

/-- Body and increment of the summation loop: `sum += *i; i++`. -/
def sumBody (arith : Int → Int) (s : SumState) : Option SumState :=
  match s.x[s.it]? with
  | some v => some { x := s.x, it := s.it + 1, sum := arith (s.sum + v) }
  | none => none

/-- Lines 12-15 on a vector `x`: `int sum = 0; for (i=x.begin();i!=x.end();i++) sum += *i;` -/
def sumLoop (arith : Int → Int) (x : List Int) (fuel : Nat) : Option (List SumState) :=
  forLoop sumCond (sumBody arith) fuel { x := x, it := 0, sum := 0 }

/-- Decimal digits of a natural number as `operator<<` prints them. -/
def showNat (n : Nat) : String := String.mk (Nat.toDigits 10 n)

/-- Text `std::cout << v` inserts for an `int` with the default format flags:
decimal, a minus sign for negative values, no padding. -/
def showInt (v : Int) : String :=
  if v < 0 then "-" ++ showNat v.natAbs else showNat v.natAbs

/-- Observable result of a run of `main`, with the final values of `x` and `sum`. -/
structure Result where
  x : List Int
  sum : Int
  stdout : String
  status : Int
  deriving DecidableEq

/-- The whole of `main` with bound `n` in the construction loop. -/
def mainWith (arith : Int → Int) (n : Int) (fuel : Nat) : Option Result :=
  match fillLoop arith n fuel with
  | none => none
  | some ftr =>
    match ftr.getLast? with
    | none => none
    | some f =>
      match sumLoop arith f.x fuel with
      | none => none
      | some str =>
        match str.getLast? with
        | none => none
        | some s =>
          some { x := s.x, sum := s.sum,
                 stdout := "sum is " ++ showInt s.sum ++ "\n",
                 status := 0 }

/-- The program `main` of sumvec.cpp on the machine: bound 5, wrapping `int`. -/
def main (fuel : Nat) : Option Result := mainWith wrapInt 5 fuel

/-- State that exists before `main` is called and outlives the call: the command
line, the environment, the unread part of standard input and the text on standard
output. A program may read and change any of it. -/
structure World where
  argv : List String
  envp : List String
  stdin : String
  stdout : String
  deriving DecidableEq

/-- Line 16 as an effect on the world: `std::cout << "sum is " << sum << std::endl;`
appends the three insertions, in order, to standard output. -/
def printSum (sum : Int) (w : World) : World :=
  { w with stdout := w.stdout ++ "sum is " ++ showInt sum ++ "\n" }

/-- The procedure `main` of sumvec.cpp called in a world `w`, on the machine. The
declarations on lines 7, 8, 12 and 13 create `x`, `i`, `sum` and the iterator
afresh in every call; line 16 is the only statement that touches the world. The
call returns the world it leaves and what it computed and wrote. -/
def mainProc (fuel : Nat) (w : World) : Option (World × Result) :=
  match fillLoop wrapInt 5 fuel with
  | none => none
  | some ftr =>
    match ftr.getLast? with
    | none => none
    | some f =>
      match sumLoop wrapInt f.x fuel with
      | none => none
      | some str =>
        match str.getLast? with
        | none => none
        | some s =>
          some (printSum s.sum w,
                { x := s.x, sum := s.sum,
                  stdout := "sum is " ++ showInt s.sum ++ "\n",
                  status := 0 })

/-- Calls of `main` one after the other, `k` of them, each starting in the world
the call before it left. -/
def runTimes (fuel : Nat) : Nat → World → Option World
  | 0, w => some w
  | k + 1, w =>
    match mainProc fuel w with
    | none => none
    | some (w', _) => runTimes fuel k w'

/-- Mathematical sum of the first `k` elements of `xs`, over the unbounded integers:
the reference value for the summation loop. -/
def prefixSum (xs : List Int) (k : Nat) : Int := (xs.take k).sum

/-- Reference run of a summation over `xs` from offset `k` for `d` more elements:
the state at offset `j` holds the exact sum of the first `j` elements. -/
def sumStates (xs : List Int) (k d : Nat) : List SumState :=
  (List.range' k (d + 1)).map (fun j => { x := xs, it := j, sum := prefixSum xs j })

/-- The list `[1, 2, ..., m]` of integers. -/
def oneTo (m : Nat) : List Int := List.map (fun (t : Nat) => (t : Int)) (List.range' 1 m)

/-- Reference run of a construction from counter `k + 1` for `d` more elements:
the state with counter `j + 1` holds the vector `[1, ..., j]`. -/
def fillStates (k d : Nat) : List FillState :=
  List.map (fun (j : Nat) => ({ i := (j : Int) + 1, x := oneTo j } : FillState))
    (List.range' k (d + 1))

/-- Closed form, in the words of the specification: the vector built for the
exclusive bound `n` is `[1, ..., n-1]`. -/
def specVector (n : Int) : List Int := oneTo (n - 1).toNat

/-- Closed form, in the words of the specification: the sum for the exclusive
bound `n` is `(n-1)*n/2`. -/
def specSum (n : Int) : Int := (n - 1) * n / 2

/-! ## Shared lemmas -/

/-- A loop that finished with some fuel finishes the same way with more. -/
theorem forLoop_mono {σ : Type} (cond : σ → Bool) (body : σ → Option σ) :
    ∀ (fuel : Nat) (s : σ) (tr : List σ), forLoop cond body fuel s = some tr →
      ∀ k : Nat, forLoop cond body (fuel + k) s = some tr
  | 0, s, tr, h, k => by simp [forLoop] at h
  | fuel + 1, s, tr, h, k => by
    rw [Nat.add_right_comm]
    simp only [forLoop] at h ⊢
    by_cases hc : cond s = true
    · simp only [hc, if_true] at h ⊢
      cases hb : body s with
      | none => simp [hb] at h
      | some s' =>
        simp only [hb] at h ⊢
        cases hr : forLoop cond body fuel s' with
        | none => simp [hr] at h
        | some tr' =>
          rw [forLoop_mono cond body fuel s' tr' hr k]
          simpa [hr] using h
    · simpa [hc] using h

/-- The construction loop of `main` on the machine, state by state. -/
theorem fillLoop_machine (fuel : Nat) (h : 5 ≤ fuel) :
    fillLoop wrapInt 5 fuel
      = some [⟨1, []⟩, ⟨2, [1]⟩, ⟨3, [1, 2]⟩, ⟨4, [1, 2, 3]⟩, ⟨5, [1, 2, 3, 4]⟩] := by
  obtain ⟨k, rfl⟩ := Nat.exists_eq_add_of_le h
  exact forLoop_mono _ _ 5 _ _ (by decide) k

/-- The construction loop of `main` over the unbounded integers, state by state. -/
theorem fillLoop_exact (fuel : Nat) (h : 5 ≤ fuel) :
    fillLoop id 5 fuel
      = some [⟨1, []⟩, ⟨2, [1]⟩, ⟨3, [1, 2]⟩, ⟨4, [1, 2, 3]⟩, ⟨5, [1, 2, 3, 4]⟩] := by
  obtain ⟨k, rfl⟩ := Nat.exists_eq_add_of_le h
  exact forLoop_mono _ _ 5 _ _ (by decide) k

/-- The summation loop of `main` on the machine, state by state. -/
theorem sumLoop_machine (fuel : Nat) (h : 5 ≤ fuel) :
    sumLoop wrapInt [1, 2, 3, 4] fuel
      = some [⟨[1, 2, 3, 4], 0, 0⟩, ⟨[1, 2, 3, 4], 1, 1⟩, ⟨[1, 2, 3, 4], 2, 3⟩,
              ⟨[1, 2, 3, 4], 3, 6⟩, ⟨[1, 2, 3, 4], 4, 10⟩] := by
  obtain ⟨k, rfl⟩ := Nat.exists_eq_add_of_le h
  exact forLoop_mono _ _ 5 _ _ (by decide) k

/-- The summation loop of `main` over the unbounded integers, state by state. -/
theorem sumLoop_exact (fuel : Nat) (h : 5 ≤ fuel) :
    sumLoop id [1, 2, 3, 4] fuel
      = some [⟨[1, 2, 3, 4], 0, 0⟩, ⟨[1, 2, 3, 4], 1, 1⟩, ⟨[1, 2, 3, 4], 2, 3⟩,
              ⟨[1, 2, 3, 4], 3, 6⟩, ⟨[1, 2, 3, 4], 4, 10⟩] := by
  obtain ⟨k, rfl⟩ := Nat.exists_eq_add_of_le h
  exact forLoop_mono _ _ 5 _ _ (by decide) k

/-- With fewer than five units of fuel the construction loop is cut short. -/
theorem fillLoop_short (fuel : Nat) (h : fuel < 5) :
    fillLoop wrapInt 5 fuel = none ∧ fillLoop id 5 fuel = none := by
  interval_cases fuel <;> decide

/-- Result of `main` on the machine once the fuel covers both loops. -/
theorem main_machine (fuel : Nat) (h : 5 ≤ fuel) :
    main fuel = some ⟨[1, 2, 3, 4], 10, "sum is 10\n", 0⟩ := by
  simp only [main, mainWith, fillLoop_machine fuel h, List.getLast?, List.getLast,
    sumLoop_machine fuel h]
  decide

/-- Result of `main` over the unbounded integers once the fuel covers both loops. -/
theorem main_exact (fuel : Nat) (h : 5 ≤ fuel) :
    mainWith id 5 fuel = some ⟨[1, 2, 3, 4], 10, "sum is 10\n", 0⟩ := by
  simp only [mainWith, fillLoop_exact fuel h, List.getLast?, List.getLast,
    sumLoop_exact fuel h]
  decide

/-- With fewer than five units of fuel `main` is cut short, in either arithmetic. -/
theorem mainWith_short (fuel : Nat) (h : fuel < 5) :
    mainWith wrapInt 5 fuel = none ∧ mainWith id 5 fuel = none := by
  simp [mainWith, (fillLoop_short fuel h).1, (fillLoop_short fuel h).2]

/-- Line 16 for the sum 10 appends the text `sum is 10` and a line feed. -/
theorem printSum_ten_stdout (w : World) :
    (printSum 10 w).stdout = w.stdout ++ "sum is 10\n" := by
  have h : showInt 10 = "10" := by decide
  simp only [printSum, h, String.append_assoc]
  rfl

/-- A call of `main` in a world, once the fuel covers both loops. -/
theorem mainProc_machine (fuel : Nat) (h : 5 ≤ fuel) (w : World) :
    mainProc fuel w
      = some (printSum 10 w, ⟨[1, 2, 3, 4], 10, "sum is 10\n", 0⟩) := by
  simp only [mainProc, fillLoop_machine fuel h, List.getLast?, List.getLast,
    sumLoop_machine fuel h]
  have h : showInt 10 = "10" := by decide
  simp only [h]
  rfl

/-- What a call of `main` in a world computes and writes is what `main` returns,
with any amount of fuel and in any world. -/
theorem mainProc_result (fuel : Nat) (w : World) :
    (mainProc fuel w).map (fun p => p.2) = main fuel := by
  unfold mainProc main mainWith
  cases h1 : fillLoop wrapInt 5 fuel with
  | none => rfl
  | some ftr =>
    simp only []
    cases h2 : ftr.getLast? with
    | none => rfl
    | some f =>
      simp only []
      cases h3 : sumLoop wrapInt f.x fuel with
      | none => rfl
      | some str =>
        simp only []
        cases h4 : str.getLast? with
        | none => rfl
        | some s => rfl

/-- Joining texts after a first text puts that text in front of the joined rest. -/
theorem foldl_append_text (l : List String) :
    ∀ a : String, List.foldl (fun r t => r ++ t) a l
      = a ++ List.foldl (fun r t => r ++ t) "" l := by
  induction l with
  | nil => intro a; simp
  | cons x l ih =>
    intro a
    rw [List.foldl_cons, List.foldl_cons, ih (a ++ x), ih ("" ++ x), String.append_assoc]
    simp

/-- Consecutive calls of `main`, each in the world the one before left, all return;
they add one copy of the text per call to standard output and change nothing else. -/
theorem runTimes_machine (fuel : Nat) (h : 5 ≤ fuel) :
    ∀ (k : Nat) (w : World), ∃ wk : World,
      runTimes fuel k w = some wk ∧
      wk.stdout = w.stdout ++ String.join (List.replicate k "sum is 10\n") ∧
      wk.argv = w.argv ∧ wk.envp = w.envp ∧ wk.stdin = w.stdin
  | 0, w => ⟨w, rfl, by simp [String.join], rfl, rfl, rfl⟩
  | k + 1, w => by
    obtain ⟨wk, hk, hout, hargv, henvp, hstdin⟩ := runTimes_machine fuel h k (printSum 10 w)
    refine ⟨wk, ?_, ?_, hargv, henvp, hstdin⟩
    · simp only [runTimes, mainProc_machine fuel h w]
      exact hk
    · rw [hout, printSum_ten_stdout, List.replicate_succ, String.append_assoc]
      simp only [String.join, List.foldl_cons]
      rw [foldl_append_text _ ("" ++ "sum is 10\n")]
      rfl

/-! ## The run of `main` -/

/-- C1: once the fuel covers both loops, the summation loop of `main` exits with
the accumulator `sum` equal to 10, and that is the value `main` hands to the
output statement. -/
theorem C1_sum_is_ten (fuel : Nat) (h : 5 ≤ fuel) :
    ∃ (ftr : List FillState) (f : FillState) (str : List SumState) (s : SumState)
      (r : Result),
      fillLoop wrapInt 5 fuel = some ftr ∧ ftr.getLast? = some f ∧
      sumLoop wrapInt f.x fuel = some str ∧ str.getLast? = some s ∧
      sumCond s = false ∧ s.sum = 10 ∧
      main fuel = some r ∧ r.sum = s.sum ∧ r.sum = 10 :=
  ⟨_, ⟨5, [1, 2, 3, 4]⟩, _, ⟨[1, 2, 3, 4], 4, 10⟩, _,
    fillLoop_machine fuel h, rfl, sumLoop_machine fuel h, rfl, rfl, rfl,
    main_machine fuel h, rfl, rfl⟩

/-- Witness of C1 with five units of fuel. -/
theorem C1_sum_is_ten_witness :
    5 ≤ 5 ∧
    ∃ (ftr : List FillState) (f : FillState) (str : List SumState) (s : SumState)
      (r : Result),
      fillLoop wrapInt 5 5 = some ftr ∧ ftr.getLast? = some f ∧
      sumLoop wrapInt f.x 5 = some str ∧ str.getLast? = some s ∧
      sumCond s = false ∧ s.sum = 10 ∧
      main 5 = some r ∧ r.sum = s.sum ∧ r.sum = 10 :=
  ⟨by decide, C1_sum_is_ten 5 (by decide)⟩

/-- C2: once the fuel covers both loops, the text `main` writes to standard output
is exactly `sum is 10` followed by one line feed; the line feed occurs once, as the
last character, and the sum is rendered as the two characters `10`. -/
theorem C2_output_text (fuel : Nat) (h : 5 ≤ fuel) :
    ∃ r : Result, main fuel = some r ∧
      r.stdout = "sum is 10" ++ "\n" ∧
      r.stdout.toList = ['s', 'u', 'm', ' ', 'i', 's', ' ', '1', '0', Char.ofNat 10] ∧
      r.stdout.toList.count (Char.ofNat 10) = 1 ∧
      showInt r.sum = "10" :=
  ⟨_, main_machine fuel h, by decide, by decide, by decide, by decide⟩

/-- Witness of C2 with five units of fuel. -/
theorem C2_output_text_witness :
    5 ≤ 5 ∧
    ∃ r : Result, main 5 = some r ∧
      r.stdout = "sum is 10" ++ "\n" ∧
      r.stdout.toList = ['s', 'u', 'm', ' ', 'i', 's', ' ', '1', '0', Char.ofNat 10] ∧
      r.stdout.toList.count (Char.ofNat 10) = 1 ∧
      showInt r.sum = "10" :=
  ⟨by decide, C2_output_text 5 (by decide)⟩

/-- C3: once the fuel covers the construction loop, it exits with `x` equal to
`[1, 2, 3, 4]`: element `k` is `k + 1`, the elements are strictly ascending, the
last one is 4, the counter stands at the exclusive bound 5, and the summation loop
starts on this very vector. -/
theorem C3_vector_after_construction (fuel : Nat) (h : 5 ≤ fuel) :
    ∃ (ftr : List FillState) (f : FillState) (str : List SumState),
      fillLoop wrapInt 5 fuel = some ftr ∧ ftr.getLast? = some f ∧
      f.x = [1, 2, 3, 4] ∧
      (∀ k : Nat, k < 4 → f.x[k]? = some ((k : Int) + 1)) ∧
      List.Pairwise (fun a b => a < b) f.x ∧ f.x.Nodup ∧
      f.x.getLast? = some 4 ∧ f.i = 5 ∧ fillCond 5 f = false ∧
      sumLoop wrapInt f.x fuel = some str ∧
      str.head? = some ⟨[1, 2, 3, 4], 0, 0⟩ :=
  ⟨_, ⟨5, [1, 2, 3, 4]⟩, _, fillLoop_machine fuel h, rfl, rfl, by decide, by decide,
    by decide, rfl, rfl, rfl, sumLoop_machine fuel h, rfl⟩

/-- Witness of C3 with five units of fuel. -/
theorem C3_vector_after_construction_witness :
    5 ≤ 5 ∧
    ∃ (ftr : List FillState) (f : FillState) (str : List SumState),
      fillLoop wrapInt 5 5 = some ftr ∧ ftr.getLast? = some f ∧
      f.x = [1, 2, 3, 4] ∧
      (∀ k : Nat, k < 4 → f.x[k]? = some ((k : Int) + 1)) ∧
      List.Pairwise (fun a b => a < b) f.x ∧ f.x.Nodup ∧
      f.x.getLast? = some 4 ∧ f.i = 5 ∧ fillCond 5 f = false ∧
      sumLoop wrapInt f.x 5 = some str ∧
      str.head? = some ⟨[1, 2, 3, 4], 0, 0⟩ :=
  ⟨by decide, C3_vector_after_construction 5 (by decide)⟩

/-- C4: once the fuel covers the construction loop, `x` starts empty, has length
`k` after `k` iterations (one more element per iteration), and has exactly four
elements when the summation loop begins. -/
theorem C4_four_elements (fuel : Nat) (h : 5 ≤ fuel) :
    ∃ (ftr : List FillState) (f : FillState) (str : List SumState) (s0 : SumState),
      fillLoop wrapInt 5 fuel = some ftr ∧ ftr.getLast? = some f ∧
      ftr.head?.map (fun s => s.x) = some [] ∧
      ftr.map (fun s => s.x.length) = [0, 1, 2, 3, 4] ∧
      (∀ k : Nat, k < ftr.length → (ftr.map (fun s => s.x.length))[k]? = some k) ∧
      f.x.length = 4 ∧
      sumLoop wrapInt f.x fuel = some str ∧ str.head? = some s0 ∧
      s0.x.length = 4 :=
  ⟨_, ⟨5, [1, 2, 3, 4]⟩, _, ⟨[1, 2, 3, 4], 0, 0⟩, fillLoop_machine fuel h, rfl, rfl, rfl,
    by decide, rfl, sumLoop_machine fuel h, rfl, rfl⟩

/-- Witness of C4 with five units of fuel. -/
theorem C4_four_elements_witness :
    5 ≤ 5 ∧
    ∃ (ftr : List FillState) (f : FillState) (str : List SumState) (s0 : SumState),
      fillLoop wrapInt 5 5 = some ftr ∧ ftr.getLast? = some f ∧
      ftr.head?.map (fun s => s.x) = some [] ∧
      ftr.map (fun s => s.x.length) = [0, 1, 2, 3, 4] ∧
      (∀ k : Nat, k < ftr.length → (ftr.map (fun s => s.x.length))[k]? = some k) ∧
      f.x.length = 4 ∧
      sumLoop wrapInt f.x 5 = some str ∧ str.head? = some s0 ∧
      s0.x.length = 4 :=
  ⟨by decide, C4_four_elements 5 (by decide)⟩

/-- C5 fails on the code: with five units of fuel the construction loop exits with
the four-element vector `[1, 2, 3, 4]`, and with no amount of fuel does it exit
with the five-element vector `[1, 2, 3, 4, 5]` that the source comment announces. -/
theorem C5_not_one_to_five :
    (∃ (ftr : List FillState) (f : FillState),
      fillLoop wrapInt 5 5 = some ftr ∧ ftr.getLast? = some f ∧
      f.x = [1, 2, 3, 4] ∧ f.x.length = 4) ∧
    ¬ ∃ (fuel : Nat) (ftr : List FillState) (f : FillState),
      fillLoop wrapInt 5 fuel = some ftr ∧ ftr.getLast? = some f ∧
      f.x = [1, 2, 3, 4, 5] := by
  refine ⟨⟨_, ⟨5, [1, 2, 3, 4]⟩, fillLoop_machine 5 (Nat.le_refl 5), rfl, rfl, rfl⟩, ?_⟩
  rintro ⟨fuel, ftr, f, h1, h2, h3⟩
  rcases Nat.lt_or_ge fuel 5 with hlt | hge
  · rw [(fillLoop_short fuel hlt).1] at h1
    cases h1
  · rw [fillLoop_machine fuel hge] at h1
    cases h1
    simp only [List.getLast?, List.getLast, Option.some.injEq] at h2
    subst h2
    simp at h3

/-- C6: once the fuel covers both loops, the state of the summation loop of `main`
after `k` elements, for every `k` from 0 to the length of `x`, has its iterator at
offset `k` and `sum` equal to the sum of the first `k` elements of `x`; `sum` is 0
before the first iteration and then 1, 3, 6, 10. -/
theorem C6_accumulator_invariant (fuel : Nat) (h : 5 ≤ fuel) :
    ∃ (ftr : List FillState) (f : FillState) (str : List SumState),
      fillLoop wrapInt 5 fuel = some ftr ∧ ftr.getLast? = some f ∧
      sumLoop wrapInt f.x fuel = some str ∧
      str.length = f.x.length + 1 ∧
      (∀ k : Nat, k ≤ f.x.length →
        ∃ s : SumState, str[k]? = some s ∧ s.it = k ∧ s.sum = (f.x.take k).sum) ∧
      str.head?.map (fun s => s.sum) = some 0 ∧
      str.map (fun s => s.sum) = [0, 1, 3, 6, 10] := by
  refine ⟨_, ⟨5, [1, 2, 3, 4]⟩, _, fillLoop_machine fuel h, rfl, sumLoop_machine fuel h,
    rfl, ?_, rfl, rfl⟩
  intro k hk
  have hk4 : k ≤ 4 := hk
  interval_cases k <;> exact ⟨_, rfl, rfl, rfl⟩

/-- Witness of C6 with five units of fuel. -/
theorem C6_accumulator_invariant_witness :
    5 ≤ 5 ∧
    ∃ (ftr : List FillState) (f : FillState) (str : List SumState),
      fillLoop wrapInt 5 5 = some ftr ∧ ftr.getLast? = some f ∧
      sumLoop wrapInt f.x 5 = some str ∧
      str.length = f.x.length + 1 ∧
      (∀ k : Nat, k ≤ f.x.length →
        ∃ s : SumState, str[k]? = some s ∧ s.it = k ∧ s.sum = (f.x.take k).sum) ∧
      str.head?.map (fun s => s.sum) = some 0 ∧
      str.map (fun s => s.sum) = [0, 1, 3, 6, 10] :=
  ⟨by decide, C6_accumulator_invariant 5 (by decide)⟩

/-- C7: once the fuel covers both loops, the run of `main` over the unbounded
integers has the counter values 1, 2, 3, 4, 5 and the accumulator values
0, 1, 3, 6, 10, all inside the range of a 32-bit signed `int`, as are the elements
of `x`; the run with wrapping arithmetic goes through the same states, and `main`
returns the same result in both arithmetics with any amount of fuel. -/
theorem C7_no_overflow (fuel : Nat) (h : 5 ≤ fuel) :
    ∃ (ftr : List FillState) (f : FillState) (str : List SumState),
      fillLoop id 5 fuel = some ftr ∧ ftr.getLast? = some f ∧
      sumLoop id f.x fuel = some str ∧
      ftr.map (fun s => s.i) = [1, 2, 3, 4, 5] ∧ (∀ s ∈ ftr, inIntRange s.i) ∧
      str.map (fun s => s.sum) = [0, 1, 3, 6, 10] ∧ (∀ s ∈ str, inIntRange s.sum) ∧
      (∀ v ∈ f.x, inIntRange v) ∧
      fillLoop wrapInt 5 fuel = some ftr ∧ sumLoop wrapInt f.x fuel = some str ∧
      (∀ fuel' : Nat, main fuel' = mainWith id 5 fuel') := by
  refine ⟨_, ⟨5, [1, 2, 3, 4]⟩, _, fillLoop_exact fuel h, rfl, sumLoop_exact fuel h,
    rfl, by decide, rfl, by decide, by decide, fillLoop_machine fuel h,
    sumLoop_machine fuel h, ?_⟩
  intro fuel'
  rcases Nat.lt_or_ge fuel' 5 with hlt | hge
  · rw [main, (mainWith_short fuel' hlt).1, (mainWith_short fuel' hlt).2]
  · rw [main_machine fuel' hge, main_exact fuel' hge]

/-- Witness of C7 with five units of fuel. -/
theorem C7_no_overflow_witness :
    5 ≤ 5 ∧
    ∃ (ftr : List FillState) (f : FillState) (str : List SumState),
      fillLoop id 5 5 = some ftr ∧ ftr.getLast? = some f ∧
      sumLoop id f.x 5 = some str ∧
      ftr.map (fun s => s.i) = [1, 2, 3, 4, 5] ∧ (∀ s ∈ ftr, inIntRange s.i) ∧
      str.map (fun s => s.sum) = [0, 1, 3, 6, 10] ∧ (∀ s ∈ str, inIntRange s.sum) ∧
      (∀ v ∈ f.x, inIntRange v) ∧
      fillLoop wrapInt 5 5 = some ftr ∧ sumLoop wrapInt f.x 5 = some str ∧
      (∀ fuel' : Nat, main fuel' = mainWith id 5 fuel') :=
  ⟨by decide, C7_no_overflow 5 (by decide)⟩

/-- C8: a call of `main` in any world, with any fuel that covers both loops,
returns the same result as a call in any other world: the sum 10 and the text
`sum is 10` with a line feed, appended to whatever standard output held, which is
the result of `main`; the call leaves the command line, the environment and
standard input as they were; and after any number of earlier calls, each started
in the world the one before left, one more call returns that same result again. -/
theorem C8_deterministic (w1 w2 : World) (f1 f2 : Nat) (h1 : 5 ≤ f1) (h2 : 5 ≤ f2)
    (k : Nat) :
    ∃ (r : Result) (w1' w2' wk wk' : World),
      mainProc f1 w1 = some (w1', r) ∧ mainProc f2 w2 = some (w2', r) ∧
      main f1 = some r ∧ r.sum = 10 ∧ r.stdout = "sum is 10\n" ∧
      (∀ (fuel : Nat) (w : World), (mainProc fuel w).map (fun p => p.2) = main fuel) ∧
      w1'.stdout = w1.stdout ++ r.stdout ∧ w2'.stdout = w2.stdout ++ r.stdout ∧
      w1'.argv = w1.argv ∧ w1'.envp = w1.envp ∧ w1'.stdin = w1.stdin ∧
      runTimes f1 k w1 = some wk ∧
      wk.stdout = w1.stdout ++ String.join (List.replicate k r.stdout) ∧
      wk.argv = w1.argv ∧ wk.envp = w1.envp ∧ wk.stdin = w1.stdin ∧
      mainProc f2 wk = some (wk', r) ∧ wk'.stdout = wk.stdout ++ r.stdout := by
  obtain ⟨wk, hk, hout, hargv, henvp, hstdin⟩ := runTimes_machine f1 h1 k w1
  exact ⟨_, _, _, wk, _, mainProc_machine f1 h1 w1, mainProc_machine f2 h2 w2,
    main_machine f1 h1, rfl, rfl, mainProc_result, printSum_ten_stdout w1,
    printSum_ten_stdout w2, rfl, rfl, rfl, hk, hout, hargv, henvp, hstdin, mainProc_machine f2 h2 wk,
    printSum_ten_stdout wk⟩

/-- Witness of C8: two calls in different worlds with different fuel, and a call
after three earlier ones. -/
theorem C8_deterministic_witness :
    (5 ≤ 5 ∧ 5 ≤ 9) ∧
    ∃ (r : Result) (w1' w2' wk wk' : World),
      mainProc 5 ⟨[], [], "", ""⟩ = some (w1', r) ∧
      mainProc 9 ⟨["-v"], ["HOME=/root"], "42", "sum is 11\n"⟩ = some (w2', r) ∧
      main 5 = some r ∧ r.sum = 10 ∧ r.stdout = "sum is 10\n" ∧
      (∀ (fuel : Nat) (w : World), (mainProc fuel w).map (fun p => p.2) = main fuel) ∧
      w1'.stdout = (⟨[], [], "", ""⟩ : World).stdout ++ r.stdout ∧
      w2'.stdout
        = (⟨["-v"], ["HOME=/root"], "42", "sum is 11\n"⟩ : World).stdout ++ r.stdout ∧
      w1'.argv = (⟨[], [], "", ""⟩ : World).argv ∧
      w1'.envp = (⟨[], [], "", ""⟩ : World).envp ∧
      w1'.stdin = (⟨[], [], "", ""⟩ : World).stdin ∧
      runTimes 5 3 ⟨[], [], "", ""⟩ = some wk ∧
      wk.stdout
        = (⟨[], [], "", ""⟩ : World).stdout ++ String.join (List.replicate 3 r.stdout) ∧
      wk.argv = (⟨[], [], "", ""⟩ : World).argv ∧
      wk.envp = (⟨[], [], "", ""⟩ : World).envp ∧
      wk.stdin = (⟨[], [], "", ""⟩ : World).stdin ∧
      mainProc 9 wk = some (wk', r) ∧ wk'.stdout = wk.stdout ++ r.stdout :=
  ⟨⟨by decide, by decide⟩,
    C8_deterministic ⟨[], [], "", ""⟩ ⟨["-v"], ["HOME=/root"], "42", "sum is 11\n"⟩ 5 9
      (by decide) (by decide) 3⟩

/-- C9: once the fuel covers both loops, `main` returns with exit status 0; the
construction loop runs its body four times, for `i` = 1, 2, 3, 4, and stops at
`i` = 5; the summation loop runs its body once per element of `x`, four times;
the body of the summation loop has a result in every state where it runs. -/
theorem C9_terminates (fuel : Nat) (h : 5 ≤ fuel) :
    ∃ (ftr : List FillState) (f : FillState) (str : List SumState) (r : Result),
      fillLoop wrapInt 5 fuel = some ftr ∧ ftr.getLast? = some f ∧
      sumLoop wrapInt f.x fuel = some str ∧ main fuel = some r ∧
      r.status = 0 ∧
      iterations ftr = 4 ∧ ftr.map (fun s => s.i) = [1, 2, 3, 4, 5] ∧
      ftr.map (fillCond 5) = [true, true, true, true, false] ∧
      iterations str = f.x.length ∧ iterations str = 4 ∧
      str.map sumCond = [true, true, true, true, false] ∧
      (∀ s ∈ str, sumCond s = true → (sumBody wrapInt s).isSome = true) :=
  ⟨_, ⟨5, [1, 2, 3, 4]⟩, _, _, fillLoop_machine fuel h, rfl, sumLoop_machine fuel h,
    main_machine fuel h, rfl, rfl, rfl, rfl, rfl, rfl, rfl, by decide⟩

/-- Witness of C9 with five units of fuel. -/
theorem C9_terminates_witness :
    5 ≤ 5 ∧
    ∃ (ftr : List FillState) (f : FillState) (str : List SumState) (r : Result),
      fillLoop wrapInt 5 5 = some ftr ∧ ftr.getLast? = some f ∧
      sumLoop wrapInt f.x 5 = some str ∧ main 5 = some r ∧
      r.status = 0 ∧
      iterations ftr = 4 ∧ ftr.map (fun s => s.i) = [1, 2, 3, 4, 5] ∧
      ftr.map (fillCond 5) = [true, true, true, true, false] ∧
      iterations str = f.x.length ∧ iterations str = 4 ∧
      str.map sumCond = [true, true, true, true, false] ∧
      (∀ s ∈ str, sumCond s = true → (sumBody wrapInt s).isSome = true) :=
  ⟨by decide, C9_terminates 5 (by decide)⟩

/-- C10: the body of the summation loop never changes `x`; the body of the
construction loop changes `x` only by adding the counter at the end, keeping
every earlier element; and in the run of `main`, once the fuel covers both loops,
each construction step appends one element and `x` is `[1, 2, 3, 4]` in every
state of the summation loop and when the output statement runs. -/
theorem C10_frame (fuel : Nat) (h : 5 ≤ fuel) :
    (∀ (arith : Int → Int) (s s' : SumState), sumBody arith s = some s' → s'.x = s.x) ∧
    (∀ (arith : Int → Int) (s : FillState), ∃ s' : FillState,
      fillBody arith s = some s' ∧ s'.x = s.x ++ [s.i] ∧
      s'.x.length = s.x.length + 1 ∧
      ∀ k : Nat, k < s.x.length → s'.x[k]? = s.x[k]?) ∧
    ∃ (ftr : List FillState) (f : FillState) (str : List SumState) (r : Result),
      fillLoop wrapInt 5 fuel = some ftr ∧ ftr.getLast? = some f ∧
      sumLoop wrapInt f.x fuel = some str ∧ main fuel = some r ∧
      List.Chain' (fun a b => b.x = a.x ++ [a.i]) ftr ∧
      f.x = [1, 2, 3, 4] ∧ (∀ s ∈ str, s.x = f.x) ∧ r.x = f.x ∧
      r.x = [1, 2, 3, 4] := by
  refine ⟨?_, ?_, _, ⟨5, [1, 2, 3, 4]⟩, _, _, fillLoop_machine fuel h, rfl,
    sumLoop_machine fuel h, main_machine fuel h, by simp, rfl, by decide, rfl, rfl⟩
  · intro arith s s' hs
    unfold sumBody at hs
    split at hs
    · cases hs; rfl
    · cases hs
  · intro arith s
    refine ⟨_, rfl, rfl, by simp, ?_⟩
    intro k hk
    exact List.getElem?_append_left hk

/-- Witness of C10 with five units of fuel. -/
theorem C10_frame_witness :
    5 ≤ 5 ∧
    ((∀ (arith : Int → Int) (s s' : SumState), sumBody arith s = some s' → s'.x = s.x) ∧
    (∀ (arith : Int → Int) (s : FillState), ∃ s' : FillState,
      fillBody arith s = some s' ∧ s'.x = s.x ++ [s.i] ∧
      s'.x.length = s.x.length + 1 ∧
      ∀ k : Nat, k < s.x.length → s'.x[k]? = s.x[k]?) ∧
    ∃ (ftr : List FillState) (f : FillState) (str : List SumState) (r : Result),
      fillLoop wrapInt 5 5 = some ftr ∧ ftr.getLast? = some f ∧
      sumLoop wrapInt f.x 5 = some str ∧ main 5 = some r ∧
      List.Chain' (fun a b => b.x = a.x ++ [a.i]) ftr ∧
      f.x = [1, 2, 3, 4] ∧ (∀ s ∈ str, s.x = f.x) ∧ r.x = f.x ∧
      r.x = [1, 2, 3, 4]) :=
  ⟨by decide, C10_frame 5 (by decide)⟩

/-! ## The summation loop on any vector -/

/-- Wrapping leaves a value of the `int` range as it is. -/
theorem wrapInt_of_inIntRange (v : Int) (h : inIntRange v) : wrapInt v = v := by
  unfold inIntRange INT_MIN INT_MAX at h
  unfold wrapInt
  omega

/-- One more element in a prefix adds that element to the prefix sum. -/
theorem prefixSum_succ (xs : List Int) (k : Nat) (v : Int) (h : xs[k]? = some v) :
    prefixSum xs (k + 1) = prefixSum xs k + v := by
  simp [prefixSum, List.take_succ, h]

/-- The whole list is its own longest prefix. -/
theorem prefixSum_length (xs : List Int) : prefixSum xs xs.length = xs.sum := by
  simp [prefixSum]

/-- The machine summation loop from offset `k`, with `d` elements left and `sum`
holding the exact prefix sum, goes through the reference states, provided every
later prefix sum is in the `int` range. -/
theorem forLoop_sum_from (xs : List Int)
    (hfit : ∀ j : Nat, j ≤ xs.length → inIntRange (prefixSum xs j)) :
    ∀ (d k : Nat), k + d = xs.length →
      forLoop sumCond (sumBody wrapInt) (d + 1) { x := xs, it := k, sum := prefixSum xs k }
        = some (sumStates xs k d)
  | 0, k, hk => by
    have hk' : k = xs.length := by omega
    simp [forLoop, sumCond, sumStates, hk']
  | d + 1, k, hk => by
    have hlt : k < xs.length := by omega
    have hget : xs[k]? = some xs[k] := List.getElem?_eq_getElem hlt
    have hstep : sumBody wrapInt { x := xs, it := k, sum := prefixSum xs k }
        = some { x := xs, it := k + 1, sum := prefixSum xs (k + 1) } := by
      simp only [sumBody, hget]
      rw [← prefixSum_succ xs k _ hget,
        wrapInt_of_inIntRange _ (hfit (k + 1) (by omega))]
    have hcond : sumCond { x := xs, it := k, sum := prefixSum xs k } = true := by
      simp [sumCond]; omega
    rw [forLoop]
    simp only [hcond, if_true, hstep]
    rw [forLoop_sum_from xs hfit d (k + 1) (by omega)]
    simp [sumStates, List.range'_succ]

/-- The machine summation loop on `xs` finishes once the fuel covers one test per
element and the final test, going through the reference states. -/
theorem sumLoop_eq_sumStates (xs : List Int)
    (hfit : ∀ j : Nat, j ≤ xs.length → inIntRange (prefixSum xs j))
    (fuel : Nat) (hfuel : xs.length + 1 ≤ fuel) :
    sumLoop wrapInt xs fuel = some (sumStates xs 0 xs.length) := by
  obtain ⟨e, rfl⟩ := Nat.exists_eq_add_of_le hfuel
  have h0 : prefixSum xs 0 = 0 := by simp [prefixSum]
  have h := forLoop_sum_from xs hfit xs.length 0 (by omega)
  rw [h0] at h
  exact forLoop_mono _ _ _ _ _ h e

/-- Last of the reference states: the iterator is at the end, `sum` is the sum. -/
theorem sumStates_getLast (xs : List Int) :
    (sumStates xs 0 xs.length).getLast? = some { x := xs, it := xs.length, sum := xs.sum } := by
  simp [sumStates, List.getLast?_map, List.getLast?_range', prefixSum_length]

/-- State number `j` of the reference states. -/
theorem sumStates_getElem (xs : List Int) (j : Nat) (hj : j ≤ xs.length) :
    (sumStates xs 0 xs.length)[j]? = some { x := xs, it := j, sum := prefixSum xs j } := by
  have hlt : j < xs.length + 1 := by omega
  simp [sumStates, List.getElem?_map, List.getElem?_range' 0 1 hlt]

/-- C11: for every vector `xs` whose prefix sums all lie in the range of a 32-bit
signed `int`, the summation loop on the machine, once the fuel covers it, finishes
after `length xs` iterations; the iterator visits the offsets 0, 1, ... in order,
the state after `j` elements holds the sum of the first `j` elements, and at exit
the iterator is at the end and `sum` is the mathematical sum of `xs`; on the empty
vector the loop runs no iteration and the result is 0. -/
theorem C11_sum_loop_correct (xs : List Int)
    (hfit : ∀ j : Nat, j ≤ xs.length → inIntRange (xs.take j).sum)
    (fuel : Nat) (hfuel : xs.length + 1 ≤ fuel) :
    (∃ (str : List SumState) (s : SumState),
      sumLoop wrapInt xs fuel = some str ∧ str.getLast? = some s ∧
      iterations str = xs.length ∧
      str.map (fun t => t.it) = List.range (xs.length + 1) ∧
      (∀ j : Nat, j ≤ xs.length →
        str[j]? = some { x := xs, it := j, sum := (xs.take j).sum }) ∧
      sumCond s = false ∧ s.it = xs.length ∧ s.x = xs ∧ s.sum = xs.sum) ∧
    (∀ fuel0 : Nat, 1 ≤ fuel0 →
      sumLoop wrapInt [] fuel0 = some [{ x := [], it := 0, sum := 0 }]) := by
  refine ⟨⟨_, _, sumLoop_eq_sumStates xs hfit fuel hfuel, sumStates_getLast xs, ?_, ?_,
    ?_, ?_, rfl, rfl, rfl⟩, ?_⟩
  · simp [iterations, sumStates]
  · simp [sumStates, List.range_eq_range', Function.comp_def]
  · intro j hj
    exact sumStates_getElem xs j hj
  · simp [sumCond]
  · intro fuel0 h0
    have h := sumLoop_eq_sumStates [] (by intro j _; simp [prefixSum]; decide) fuel0 h0
    simpa [sumStates, prefixSum] using h

/-- Witness of C11 on a vector with a negative element, with four units of fuel. -/
theorem C11_sum_loop_correct_witness :
    ((∀ j : Nat, j ≤ ([3, -1, 2] : List Int).length →
        inIntRange (([3, -1, 2] : List Int).take j).sum) ∧
      ([3, -1, 2] : List Int).length + 1 ≤ 4) ∧
    ((∃ (str : List SumState) (s : SumState),
      sumLoop wrapInt [3, -1, 2] 4 = some str ∧ str.getLast? = some s ∧
      iterations str = ([3, -1, 2] : List Int).length ∧
      str.map (fun t => t.it) = List.range (([3, -1, 2] : List Int).length + 1) ∧
      (∀ j : Nat, j ≤ ([3, -1, 2] : List Int).length →
        str[j]? = some { x := [3, -1, 2], it := j, sum := (([3, -1, 2] : List Int).take j).sum }) ∧
      sumCond s = false ∧ s.it = ([3, -1, 2] : List Int).length ∧ s.x = [3, -1, 2] ∧
      s.sum = ([3, -1, 2] : List Int).sum) ∧
    (∀ fuel0 : Nat, 1 ≤ fuel0 →
      sumLoop wrapInt [] fuel0 = some [{ x := [], it := 0, sum := 0 }])) :=
  ⟨⟨by decide, by decide⟩, C11_sum_loop_correct [3, -1, 2] (by decide) 4 (by decide)⟩

/-! ## Both loops for any bound -/

/-- Extending `[1, ..., k]` by one element. -/
theorem oneTo_succ (k : Nat) : oneTo (k + 1) = oneTo k ++ [(k : Int) + 1] := by
  simp [oneTo, List.range'_concat, Nat.add_comm, Int.add_comm]

/-- The list `[1, ..., m]` has `m` elements. -/
theorem oneTo_length (m : Nat) : (oneTo m).length = m := by
  simp [oneTo]

/-- Gauss: twice the sum of `[1, ..., m]` is `m * (m + 1)`. -/
theorem oneTo_sum (m : Nat) : (oneTo m).sum * 2 = (m : Int) * ((m : Int) + 1) := by
  induction m with
  | zero => simp [oneTo]
  | succ k ih =>
    rw [oneTo_succ, List.sum_append]
    simp only [List.sum_cons, List.sum_nil]
    push_cast
    linarith

/-- A prefix of `[1, ..., m]` is `[1, ..., j]`. -/
theorem oneTo_take (m j : Nat) (h : j ≤ m) : (oneTo m).take j = oneTo j := by
  obtain ⟨e, rfl⟩ := Nat.exists_eq_add_of_le h
  have happ : List.range' 1 (j + e) = List.range' 1 j ++ List.range' (1 + j) e := by
    rw [Nat.add_comm j e]
    simp
  simp only [oneTo, happ, List.map_append]
  exact List.take_left' (by simp)

/-- The machine construction loop for the bound `m + 1`, from counter `k + 1` with
`x = [1, ..., k]` and `d` elements left, goes through the reference states. -/
theorem forLoop_fill_from (m : Nat) (hm : (m : Int) + 1 ≤ INT_MAX) :
    ∀ (d k : Nat), k + d = m →
      forLoop (fillCond ((m : Int) + 1)) (fillBody wrapInt) (d + 1)
          { i := (k : Int) + 1, x := oneTo k }
        = some (fillStates k d)
  | 0, k, hk => by
    have hk' : k = m := by omega
    simp [forLoop, fillCond, fillStates, hk']
  | d + 1, k, hk => by
    have hcond : fillCond ((m : Int) + 1) { i := (k : Int) + 1, x := oneTo k } = true := by
      simp only [fillCond, decide_eq_true_eq]
      omega
    have hwrap : wrapInt ((k : Int) + 1 + 1) = ((k + 1 : Nat) : Int) + 1 := by
      rw [wrapInt_of_inIntRange]
      · push_cast; rfl
      · unfold inIntRange INT_MIN
        unfold INT_MAX at hm ⊢
        omega
    have hstep : fillBody wrapInt { i := (k : Int) + 1, x := oneTo k }
        = some { i := ((k + 1 : Nat) : Int) + 1, x := oneTo (k + 1) } := by
      simp only [fillBody, hwrap, oneTo_succ]
    rw [forLoop]
    simp only [hcond, if_true, hstep]
    rw [forLoop_fill_from m hm d (k + 1) (by omega)]
    simp [fillStates, List.range'_succ]

/-- The machine construction loop for the bound `m + 1` finishes once the fuel
covers one test per element and the final test. -/
theorem fillLoop_eq_fillStates (m : Nat) (hm : (m : Int) + 1 ≤ INT_MAX)
    (fuel : Nat) (hfuel : m + 1 ≤ fuel) :
    fillLoop wrapInt ((m : Int) + 1) fuel = some (fillStates 0 m) := by
  obtain ⟨e, rfl⟩ := Nat.exists_eq_add_of_le hfuel
  have h := forLoop_fill_from m hm m 0 (by omega)
  have h0 : ({ i := ((0 : Nat) : Int) + 1, x := oneTo 0 } : FillState) = { i := 1, x := [] } := by
    simp [oneTo]
  rw [h0] at h
  exact forLoop_mono _ _ _ _ _ h e

/-- Last of the reference states: the counter is at the bound, `x` is complete. -/
theorem fillStates_getLast (m : Nat) :
    (fillStates 0 m).getLast? = some { i := (m : Int) + 1, x := oneTo m } := by
  simp [fillStates, List.getLast?_map, List.getLast?_range']

/-- Every prefix sum of `[1, ..., m]` is an `int` when the whole sum is. -/
theorem oneTo_prefix_fits (m : Nat) (hsum : (oneTo m).sum ≤ INT_MAX) :
    ∀ j : Nat, j ≤ (oneTo m).length → inIntRange (prefixSum (oneTo m) j) := by
  intro j hj
  rw [oneTo_length] at hj
  have hjm : (j : Int) ≤ (m : Int) := by exact_mod_cast hj
  have hj0 : (0 : Int) ≤ (j : Int) := by positivity
  have h1 := oneTo_sum j
  have h2 := oneTo_sum m
  rw [prefixSum, oneTo_take m j hj]
  unfold inIntRange INT_MIN
  unfold INT_MAX at hsum ⊢
  constructor <;> nlinarith

/-- Element `k` of `[1, ..., m]` is `k + 1`. -/
theorem oneTo_getElem (m k : Nat) (h : k < m) : (oneTo m)[k]? = some ((k : Int) + 1) := by
  simp only [oneTo, List.getElem?_map, List.getElem?_range' 1 1 h, Option.map_some']
  congr 1
  push_cast
  ring

/-- The closed form `(n-1)*n/2` at `n = m + 1` is the sum of `[1, ..., m]`. -/
theorem specSum_eq_sum (m : Nat) : specSum ((m : Int) + 1) = (oneTo m).sum := by
  have h := oneTo_sum m
  have h' : ((m : Int) + 1 - 1) * ((m : Int) + 1) = (oneTo m).sum * 2 := by
    rw [h]; ring
  rw [specSum, h']
  exact Int.mul_ediv_cancel _ (by decide)

/-- A bound whose closed-form sum is an `int` is itself an `int`. -/
theorem bound_fits (m : Nat) (hsum : (oneTo m).sum ≤ INT_MAX) : (m : Int) + 1 ≤ INT_MAX := by
  have h := oneTo_sum m
  have h0 : (0 : Int) ≤ (m : Int) := by positivity
  unfold INT_MAX at hsum ⊢
  by_contra hc
  have hge : (2147483647 : Int) ≤ (m : Int) := by omega
  nlinarith

/-- C12: for every exclusive bound `n` with `1 ≤ n` whose closed form `(n-1)*n/2`
lies in the range of a 32-bit signed `int`, the two loops of `main` with 5 replaced
by `n`, on the machine and once the fuel covers them, build `x = [1, ..., n-1]`
in `n - 1` iterations and sum it in `n - 1` iterations to `(n-1)*n/2`; for the
bound 5 of the source this is `[1, 2, 3, 4]` and `4*5/2 = 10`, the sum `main`
computes. -/
theorem C12_closed_form (n : Int) (h1 : 1 ≤ n) (h2 : inIntRange (specSum n))
    (fuel : Nat) (hfuel : n.toNat ≤ fuel) :
    (∃ (ftr : List FillState) (f : FillState) (str : List SumState) (s : SumState)
      (r : Result),
      fillLoop wrapInt n fuel = some ftr ∧ ftr.getLast? = some f ∧
      f.x = specVector n ∧ f.x.length = (n - 1).toNat ∧
      iterations ftr = (n - 1).toNat ∧
      (∀ k : Nat, k < f.x.length → f.x[k]? = some ((k : Int) + 1)) ∧
      sumLoop wrapInt f.x fuel = some str ∧ str.getLast? = some s ∧
      iterations str = (n - 1).toNat ∧
      s.sum = f.x.sum ∧ s.sum = specSum n ∧
      mainWith wrapInt n fuel = some r ∧ r.x = specVector n ∧ r.sum = specSum n) ∧
    (specVector 5 = [1, 2, 3, 4] ∧ specSum 5 = 4 * 5 / 2 ∧ specSum 5 = 10 ∧
      ∀ fuel5 : Nat, 5 ≤ fuel5 →
        ∃ r : Result, main fuel5 = some r ∧ r.x = specVector 5 ∧ r.sum = specSum 5) := by
  refine ⟨?_, by decide, by decide, by decide,
    fun fuel5 h5 => ⟨_, main_machine fuel5 h5, by decide, by decide⟩⟩
  obtain ⟨m, rfl⟩ : ∃ m : Nat, n = (m : Int) + 1 := ⟨(n - 1).toNat, by omega⟩
  have htoNat : ((m : Int) + 1 - 1).toNat = m := by simp
  have hfuel' : m + 1 ≤ fuel := by omega
  have hS : specSum ((m : Int) + 1) = (oneTo m).sum := specSum_eq_sum m
  have hle : (oneTo m).sum ≤ INT_MAX := by rw [← hS]; exact h2.2
  have hm : (m : Int) + 1 ≤ INT_MAX := bound_fits m hle
  have hfill := fillLoop_eq_fillStates m hm fuel hfuel'
  have hsum := sumLoop_eq_sumStates (oneTo m) (oneTo_prefix_fits m hle) fuel
    (by rw [oneTo_length]; exact hfuel')
  have hlast := fillStates_getLast m
  have hslast := sumStates_getLast (oneTo m)
  refine ⟨_, { i := (m : Int) + 1, x := oneTo m }, _,
    { x := oneTo m, it := (oneTo m).length, sum := (oneTo m).sum },
    { x := oneTo m, sum := (oneTo m).sum,
      stdout := "sum is " ++ showInt (oneTo m).sum ++ "\n", status := 0 },
    hfill, hlast, ?_, ?_, ?_, ?_, hsum, hslast, ?_, rfl, hS.symm, ?_, ?_, hS.symm⟩
  · simp only [specVector, htoNat]
  · simp only [htoNat, oneTo_length]
  · simp [iterations, fillStates]
  · intro k hk
    rw [oneTo_length] at hk
    exact oneTo_getElem m k hk
  · simp [iterations, sumStates, oneTo_length]
  · simp only [mainWith, hfill, hlast, hsum, hslast]
  · simp only [specVector, htoNat]

/-- Witness of C12 at the bound 7, with nine units of fuel. -/
theorem C12_closed_form_witness :
    (1 ≤ (7 : Int) ∧ inIntRange (specSum 7) ∧ (7 : Int).toNat ≤ 9) ∧
    ((∃ (ftr : List FillState) (f : FillState) (str : List SumState) (s : SumState)
      (r : Result),
      fillLoop wrapInt 7 9 = some ftr ∧ ftr.getLast? = some f ∧
      f.x = specVector 7 ∧ f.x.length = ((7 : Int) - 1).toNat ∧
      iterations ftr = ((7 : Int) - 1).toNat ∧
      (∀ k : Nat, k < f.x.length → f.x[k]? = some ((k : Int) + 1)) ∧
      sumLoop wrapInt f.x 9 = some str ∧ str.getLast? = some s ∧
      iterations str = ((7 : Int) - 1).toNat ∧
      s.sum = f.x.sum ∧ s.sum = specSum 7 ∧
      mainWith wrapInt 7 9 = some r ∧ r.x = specVector 7 ∧ r.sum = specSum 7) ∧
    (specVector 5 = [1, 2, 3, 4] ∧ specSum 5 = 4 * 5 / 2 ∧ specSum 5 = 10 ∧
      ∀ fuel5 : Nat, 5 ≤ fuel5 →
        ∃ r : Result, main fuel5 = some r ∧ r.x = specVector 5 ∧ r.sum = specSum 5)) :=
  ⟨⟨by decide, by decide, by decide⟩,
    C12_closed_form 7 (by decide) (by decide) 9 (by decide)⟩

end SumVec
